import Mathlib

/-!
Verification of the WASM HTTP transport bridge (`src/http/http_wasm.cpp`)
and the Arrow IPC ingestion helper (`src/arrow/arrow_ipc_insert.cpp`).

The C++ code is shallowly embedded: bytes are `Nat` (each heap byte is
`< 256`), strings are Lean `String`/`List Char`, host-side JavaScript
primitives are fields of an explicit `HostEnv` record, and the null-or-buffer
return of a host call is `Option (List Nat)`.
-/

namespace Ducklings

/-- HTTP status codes.  The engine's enum has many members; the bridge only
ever constructs `OK_200` and `NotFound_404`, but we keep further members so
that "never any other status" is a real statement. -/
inductive HTTPStatusCode where
  | OK_200
  | NotFound_404
  | BadRequest_400
  | InternalServerError_500
  deriving DecidableEq, Repr

/-- Structured response (`HTTPResponse`): status, diagnostic reason, body
bytes and parsed response headers.  Default-constructed fields are empty,
matching `make_uniq<HTTPResponse>(status)` in the C++. -/
structure HTTPResponse where
  status : HTTPStatusCode
  reason : String
  body : List Nat
  headers : List (String × String)
  deriving DecidableEq, Repr

/-! ## Length-prefixed buffer protocol (§4.4) -/

/-- Bridge-side decode of the 4-byte little-endian length prefix, from
`DoRequest`: `len |= b[0]; len |= b[1] << 8; len |= b[2] << 16;
len |= b[3] << 24`.  Each heap byte is `< 256`, so the bitwise ors of
disjoint shifted bytes are ordinary addition. -/
def decodeLen (buf : List Nat) : Nat :=
  buf.getD 0 0 + buf.getD 1 0 * 256 + buf.getD 2 0 * 65536 +
    buf.getD 3 0 * 16777216

/-- Host-side encoding of the length prefix (from the JS in
`em_sync_request`): `len & 0xFF`, `(len >> 8) & 0xFF`, `(len >> 16) & 0xFF`,
`(len >> 24) & 0xFF`. -/
def encLen (L : Nat) : List Nat :=
  [L % 256, L / 256 % 256, L / 65536 % 256, L / 16777216 % 256]

/-- Host-side wire encoding: 4-byte little-endian length prefix followed by
the payload bytes. -/
def encodeWire (B : List Nat) : List Nat :=
  encLen B.length ++ B

/-- Bridge-side wire decode: read the length prefix, then take that many
bytes after the prefix (the C++ reads exactly `len` bytes starting at
`result + 4`; `List.take` clamps at the end of the modelled buffer). -/
def decodeWire (buf : List Nat) : List Nat :=
  (buf.drop 4).take (decodeLen buf)

/-! ## URL normalizer (§4.2, `HTTPWasmClient::NormalizeUrl`) -/

/-- `strStarts p s` models `s.rfind(p, 0) == 0`, i.e. "`s` starts with
`p`". -/
def strStarts (p s : String) : Bool :=
  p.toList.isPrefixOf s.toList

/-- Second half of `HTTPWasmClient::NormalizeUrl`: if `path` begins with
neither `https://` nor `http://`, prepend `https://`. -/
def addScheme (path : String) : String :=
  if strStarts "https://" path || strStarts "http://" path then path
  else "https://" ++ path

/-- `HTTPWasmClient::NormalizeUrl`: if the url begins with `/`, prepend the
configured origin (`host_port`); then, if the result begins with neither
`https://` nor `http://`, prepend `https://`.  (`url[0]` on an empty
`std::string` reads the terminating null character, modelled by the
`Char.ofNat 0` default.) -/
def normalizeUrl (host_port url : String) : String :=
  addScheme (if url.toList.headD (Char.ofNat 0) = '/' then host_port ++ url else url)

theorem strStarts_append_self (p s : String) : strStarts p (p ++ s) = true := by
  have : (p ++ s).toList = p.toList ++ s.toList := by
    simp [String.toList]
  simp only [strStarts, this]
  exact List.isPrefixOf_iff_prefix.mpr (List.prefix_append _ _)

theorem addScheme_has_scheme (p : String) :
    (strStarts "https://" (addScheme p) || strStarts "http://" (addScheme p)) = true := by
  unfold addScheme
  split
  · assumption
  · simp [strStarts_append_self]

/-! ## C2: wire round-trip -/

/-- C2: for every byte sequence `B` (bytes `< 256` is not even needed) of
length `< 2^32`, decoding the host-side encoding of `B` — a 4-byte unsigned
little-endian length prefix followed by the bytes — yields exactly `B`. -/
theorem decodeWire_encodeWire (B : List Nat) (h : B.length < 4294967296) :
    decodeWire (encodeWire B) = B := by
  have hlen : decodeLen (encodeWire B) = B.length := by
    simp only [decodeLen, encodeWire, encLen, List.cons_append, List.nil_append,
      List.getD_cons_zero, List.getD_cons_succ]
    omega
  simp only [decodeWire, hlen]
  simp only [encodeWire, encLen, List.cons_append, List.nil_append,
    List.drop_succ_cons, List.drop_zero, List.take_length]

/-- Witness for C2 at the concrete byte sequence `[7, 8, 9]`. -/
theorem decodeWire_encodeWire_witness :
    [7, 8, 9].length < 4294967296 ∧ decodeWire (encodeWire [7, 8, 9]) = [7, 8, 9] :=
  ⟨by decide, decodeWire_encodeWire [7, 8, 9] (by decide)⟩

/-! ## C4: URL normalization -/

/-- C4: the three concrete examples from the spec; a url that begins with
`/` gets the origin prepended (and then at most a scheme); a url already
carrying a scheme is left untouched; and every produced url carries a
scheme (and the function is total — no failure mode). -/
theorem normalizeUrl_spec :
    normalizeUrl "https://h" "/foo" = "https://h/foo" ∧
    normalizeUrl "https://h" "h/foo" = "https://h/foo" ∧
    normalizeUrl "https://h" "http://x/y" = "http://x/y" ∧
    (∀ origin url : String, url.toList.headD (Char.ofNat 0) = '/' →
      normalizeUrl origin url = origin ++ url ∨
      normalizeUrl origin url = "https://" ++ (origin ++ url)) ∧
    (∀ origin url : String,
      (strStarts "https://" url || strStarts "http://" url) = true →
      url.toList.headD (Char.ofNat 0) ≠ '/' →
      normalizeUrl origin url = url) ∧
    (∀ origin url : String,
      (strStarts "https://" (normalizeUrl origin url) ||
        strStarts "http://" (normalizeUrl origin url)) = true) := by
  refine ⟨by decide, by decide, by decide, ?_, ?_, ?_⟩
  · intro origin url h
    simp only [normalizeUrl]
    rw [if_pos h]
    unfold addScheme
    split
    · exact Or.inl rfl
    · exact Or.inr rfl
  · intro origin url hs hhead
    simp only [normalizeUrl]
    rw [if_neg hhead]
    unfold addScheme
    rw [if_pos hs]
  · intro origin url
    simp only [normalizeUrl]
    exact addScheme_has_scheme _

/-- Witness for C4 at origin `"o"` and url `"/p"`. -/
theorem normalizeUrl_spec_witness :
    ("/p".toList.headD (Char.ofNat 0) = '/') ∧
    (normalizeUrl "o" "/p" = "o" ++ "/p" ∨
      normalizeUrl "o" "/p" = "https://" ++ ("o" ++ "/p")) :=
  ⟨by decide, normalizeUrl_spec.2.2.2.1 "o" "/p" (by decide)⟩

/-! ## Header codec (§4.3)

Outbound: `HTTPWasmClient::PrepareHeaders` marshals the header set into a
flat `2N` array of heap-copied strings (even indices names, odd indices
values, in iteration order).  The engine's `HTTPHeaders` type is external to
this repository; per the spec's data model it is an ordered collection of
(name, value) pairs, modelled here as `List (String × String)`.

Inbound (`HTTPWasmClient::DoHeadRequest`): the raw header block is split on
`"\r\n"` (`StringUtil::Split` is engine code external to this repository;
splitting on the separator is modelled directly), each line is split at its
first `':'`, leading spaces are dropped from the value, and lines without a
colon are skipped. -/

/-- Flat marshaled header array: for each pair, the name then the value,
insertion order preserved (the loop body of `PrepareHeaders`). -/
def prepareHeaders : List (String × String) → List String
  | [] => []
  | h :: t => h.1 :: h.2 :: prepareHeaders t

/-- Host-call-time header rename (the JS loop body in `em_sync_request` /
`em_sync_head_request`): `"Host"` becomes `"X-Host-Override"`, then
`"User-Agent"` becomes `"X-User-Agent"`. -/
def renameHeader (n : String) : String :=
  let n1 := if n = "Host" then "X-Host-Override" else n
  if n1 = "User-Agent" then "X-User-Agent" else n1

/-- The host-side JS loop reads the flat array pairwise (even index name,
odd index value), renames reserved names and installs each pair on the
request object. -/
def installHeaders : List String → List (String × String)
  | n :: v :: rest => (renameHeader n, v) :: installHeaders rest
  | _ => []

/-- Prepend a character to the first group of a split result (helper for
`splitCRLF`). -/
def consHead (c : Char) : List (List Char) → List (List Char)
  | [] => [[c]]
  | h :: t => (c :: h) :: t

/-- Split a character sequence on occurrences of the two-character
separator `"\r\n"`. -/
def splitCRLF : List Char → List (List Char)
  | [] => [[]]
  | [c] => [[c]]
  | c1 :: c2 :: rest =>
    if c1 = '\r' ∧ c2 = '\n' then [] :: splitCRLF rest
    else consHead c1 (splitCRLF (c2 :: rest))

/-- Whether the sequence contains the two-character separator `"\r\n"`. -/
def hasCRLF : List Char → Bool
  | c1 :: c2 :: rest => (c1 = '\r' && c2 = '\n') || hasCRLF (c2 :: rest)
  | _ => false

/-- Drop leading spaces from a header value (the
`while (!value.empty() && value[0] == ' ')` loop). -/
def trimValue (v : List Char) : List Char :=
  v.dropWhile (fun c => c = ' ')

/-- Parse one header line: find the first `':'`; the name is everything
before it, the value everything after with leading spaces dropped.  A line
without a colon yields `none` (it is silently skipped). -/
def parseLine : List Char → Option (List Char × List Char)
  | [] => none
  | c :: rest =>
    if c = ':' then some ([], trimValue rest)
    else match parseLine rest with
      | none => none
      | some (n, v) => some (c :: n, v)

/-- Inbound header-block decode: split the block on `"\r\n"` and keep the
parse of every line that contains a colon. -/
def decodeHeaderBlock (s : List Char) : List (List Char × List Char) :=
  (splitCRLF s).filterMap parseLine

/-- Render a header set as a well-formed `Name: Value\r\n` text block (the
host-side `getAllResponseHeaders` shape whose round-trip the spec
states). -/
def encodeHeaderBlock : List (List Char × List Char) → List Char
  | [] => []
  | (n, v) :: t => n ++ ':' :: ' ' :: v ++ '\r' :: '\n' :: encodeHeaderBlock t

/-! ## Host environment, client and dispatcher (§4.1, §4.5) -/

/-- Host-boundary call events, used to state the once-only capability probe
and the per-dispatch primitive selection. -/
inductive HostCall where
  | probe
  | syncReq
  | asyncReq
  | syncHeadCall
  | asyncHeadCall
  deriving DecidableEq, Repr

/-- The host JavaScript environment: the capability probe result
(`em_has_xhr`) and the four request primitives, each returning a wire
buffer or null (`none`).  Request primitives receive the normalized url,
the method, the flat marshaled header array, and the optional body
bytes. -/
structure HostEnv where
  probeResult : Nat
  syncRequest : String → String → List String → Option (List Nat) → Option (List Nat)
  asyncRequest : String → String → List String → Option (List Nat) → Option (List Nat)
  syncHead : String → List String → Option (List Nat)
  asyncHead : String → List String → Option (List Nat)

/-- The client state: configured origin and the transport mode cached at
construction (`use_sync_xhr`).  No method of the C++ class ever assigns
`use_sync_xhr` after the constructor. -/
structure HTTPWasmClient where
  host_port : String
  use_sync_xhr : Bool
  deriving DecidableEq, Repr

/-- `HTTPWasmClient::HTTPWasmClient`: store the origin and probe the host
exactly once (`use_sync_xhr = (em_has_xhr() == 1)`); the probe is the
single host call made at construction. -/
def mkClient (env : HostEnv) (proto_host_port : String) :
    HTTPWasmClient × List HostCall :=
  ({ host_port := proto_host_port, use_sync_xhr := env.probeResult == 1 },
    [HostCall.probe])

/-- One invocation of the streaming content handler: the payload region the
handler's pointer gives access to (the bytes after the 4-byte prefix) and
the length the bridge reports to it. -/
structure HandlerCall where
  payload : List Nat
  reportedLen : Nat
  deriving DecidableEq, Repr

/-- Result of one dispatch: the structured response, the content-handler
invocations, and the host-boundary calls it performed. -/
structure DispatchResult where
  response : HTTPResponse
  handlerCalls : List HandlerCall
  hostCalls : List HostCall
  deriving DecidableEq, Repr

/-- The request primitive selected by the cached transport mode
(`if (use_sync_xhr) em_sync_request(...) else em_async_request(...)`). -/
def chosenRequest (client : HTTPWasmClient) (env : HostEnv) (path method : String)
    (flat : List String) (body : Option (List Nat)) : Option (List Nat) :=
  if client.use_sync_xhr then env.syncRequest path method flat body
  else env.asyncRequest path method flat body

/-- The HEAD primitive selected by the cached transport mode. -/
def chosenHead (client : HTTPWasmClient) (env : HostEnv) (path : String)
    (flat : List String) : Option (List Nat) :=
  if client.use_sync_xhr then env.syncHead path flat
  else env.asyncHead path flat

/-- The host-call event a `DoRequest` dispatch emits. -/
def requestEvent (client : HTTPWasmClient) : HostCall :=
  if client.use_sync_xhr then HostCall.syncReq else HostCall.asyncReq

/-- The host-call event a `DoHeadRequest` dispatch emits. -/
def headEvent (client : HTTPWasmClient) : HostCall :=
  if client.use_sync_xhr then HostCall.syncHeadCall else HostCall.asyncHeadCall

/-- `HTTPWasmClient::DoRequest`: normalize the url, marshal the headers,
invoke the selected primitive; on null produce a 404 response with the
fixed diagnostic reason; otherwise decode the length prefix, copy the
payload into the body, and invoke the content handler (when supplied) with
a pointer to the payload region and the decoded length. -/
def doRequest (client : HTTPWasmClient) (env : HostEnv) (method url : String)
    (hdrs : List (String × String)) (body : Option (List Nat))
    (hasHandler : Bool) : DispatchResult :=
  match chosenRequest client env (normalizeUrl client.host_port url) method
      (prepareHeaders hdrs) body with
  | none =>
    { response := { status := HTTPStatusCode.NotFound_404,
                    reason := "Request failed - check console for errors",
                    body := [], headers := [] },
      handlerCalls := [], hostCalls := [requestEvent client] }
  | some buf =>
    { response := { status := HTTPStatusCode.OK_200, reason := "",
                    body := (buf.drop 4).take (decodeLen buf), headers := [] },
      handlerCalls :=
        if hasHandler then [⟨buf.drop 4, decodeLen buf⟩] else [],
      hostCalls := [requestEvent client] }

/-- `HTTPWasmClient::DoHeadRequest`: like `doRequest` but with the HEAD
primitives, the fixed reason `"HEAD request failed"` on null, and the
payload parsed as a header block into the response's header collection
(the body stays empty). -/
def doHeadRequest (client : HTTPWasmClient) (env : HostEnv) (url : String)
    (hdrs : List (String × String)) : DispatchResult :=
  match chosenHead client env (normalizeUrl client.host_port url)
      (prepareHeaders hdrs) with
  | none =>
    { response := { status := HTTPStatusCode.NotFound_404,
                    reason := "HEAD request failed",
                    body := [], headers := [] },
      handlerCalls := [], hostCalls := [headEvent client] }
  | some buf =>
    { response := { status := HTTPStatusCode.OK_200, reason := "", body := [],
                    headers :=
                      (decodeHeaderBlock
                          (((buf.drop 4).take (decodeLen buf)).map Char.ofNat)).map
                        (fun p => (String.mk p.1, String.mk p.2)) },
      handlerCalls := [], hostCalls := [headEvent client] }

/-- `HTTPWasmClient::Get`: `DoRequest("GET", url, headers, nullptr, 0,
content_handler)`. -/
def get (client : HTTPWasmClient) (env : HostEnv) (url : String)
    (hdrs : List (String × String)) (hasHandler : Bool) : DispatchResult :=
  doRequest client env "GET" url hdrs none hasHandler

/-- `HTTPWasmClient::Head`. -/
def head (client : HTTPWasmClient) (env : HostEnv) (url : String)
    (hdrs : List (String × String)) : DispatchResult :=
  doHeadRequest client env url hdrs

/-- `PostRequestInfo`: url, headers, input buffer and the caller-supplied
output accumulation buffer (`buffer_out`). -/
structure PostRequestInfo where
  url : String
  headers : List (String × String)
  buffer_in : List Nat
  buffer_out : List Nat
  deriving DecidableEq, Repr

/-- `PutRequestInfo`: url, headers, input buffer. -/
structure PutRequestInfo where
  url : String
  headers : List (String × String)
  buffer_in : List Nat
  deriving DecidableEq, Repr

/-- `DeleteRequestInfo`: url and headers. -/
structure DeleteRequestInfo where
  url : String
  headers : List (String × String)
  deriving DecidableEq, Repr

/-- `HTTPWasmClient::Post`: dispatch with the input buffer as body and no
content handler; then, if the response status is `OK_200`, append the
response body onto `info.buffer_out` (the returned `unique_ptr` is never
null, so the C++ `result &&` conjunct reduces to the status test). -/
def post (client : HTTPWasmClient) (env : HostEnv) (info : PostRequestInfo) :
    DispatchResult × PostRequestInfo :=
  let r := doRequest client env "POST" info.url info.headers
    (some info.buffer_in) false
  if r.response.status = HTTPStatusCode.OK_200 then
    (r, { info with buffer_out := info.buffer_out ++ r.response.body })
  else (r, info)

/-- `HTTPWasmClient::Put`: dispatch with the input buffer as body, no
content handler; the request info is only read. -/
def put (client : HTTPWasmClient) (env : HostEnv) (info : PutRequestInfo) :
    DispatchResult × PutRequestInfo :=
  (doRequest client env "PUT" info.url info.headers (some info.buffer_in) false,
    info)

/-- `HTTPWasmClient::Delete`: dispatch with no body and no content handler;
the request info is only read. -/
def httpDelete (client : HTTPWasmClient) (env : HostEnv)
    (info : DeleteRequestInfo) : DispatchResult × DeleteRequestInfo :=
  (doRequest client env "DELETE" info.url info.headers none false, info)

/-! ## C1: per-verb dispatch contract -/

theorem doRequest_status_dichotomy (client : HTTPWasmClient) (env : HostEnv)
    (m url : String) (hdrs : List (String × String)) (body : Option (List Nat))
    (hh : Bool) :
    (doRequest client env m url hdrs body hh).response.status = HTTPStatusCode.OK_200 ∨
    (doRequest client env m url hdrs body hh).response.status = HTTPStatusCode.NotFound_404 := by
  unfold doRequest
  split <;> simp

theorem doRequest_fail (client : HTTPWasmClient) (env : HostEnv)
    (m url : String) (hdrs : List (String × String)) (body : Option (List Nat))
    (hh : Bool)
    (h : chosenRequest client env (normalizeUrl client.host_port url) m
      (prepareHeaders hdrs) body = none) :
    (doRequest client env m url hdrs body hh).response =
      { status := HTTPStatusCode.NotFound_404,
        reason := "Request failed - check console for errors",
        body := [], headers := [] } := by
  unfold doRequest
  rw [h]

theorem doHeadRequest_status_dichotomy (client : HTTPWasmClient) (env : HostEnv)
    (url : String) (hdrs : List (String × String)) :
    (doHeadRequest client env url hdrs).response.status = HTTPStatusCode.OK_200 ∨
    (doHeadRequest client env url hdrs).response.status = HTTPStatusCode.NotFound_404 := by
  unfold doHeadRequest
  split <;> simp

theorem doHeadRequest_fail (client : HTTPWasmClient) (env : HostEnv)
    (url : String) (hdrs : List (String × String))
    (h : chosenHead client env (normalizeUrl client.host_port url)
      (prepareHeaders hdrs) = none) :
    (doHeadRequest client env url hdrs).response =
      { status := HTTPStatusCode.NotFound_404, reason := "HEAD request failed",
        body := [], headers := [] } := by
  unfold doHeadRequest
  rw [h]

theorem post_fst (client : HTTPWasmClient) (env : HostEnv) (info : PostRequestInfo) :
    (post client env info).1 =
      doRequest client env "POST" info.url info.headers (some info.buffer_in) false := by
  unfold post
  dsimp only
  split <;> rfl

/-- C1: every verb's dispatch is a total function returning a structured
response whose status is `OK_200` or `NotFound_404` and nothing else;
whenever the selected host primitive returns null, the response has
not-found status and a non-empty diagnostic reason, and for `Head`
additionally an empty header collection. -/
theorem verb_dispatch_contract (client : HTTPWasmClient) (env : HostEnv)
    (url : String) (hdrs : List (String × String)) (hasHandler : Bool)
    (pinfo : PostRequestInfo) (uinfo : PutRequestInfo) (dinfo : DeleteRequestInfo) :
    ((get client env url hdrs hasHandler).response.status = HTTPStatusCode.OK_200 ∨
      (get client env url hdrs hasHandler).response.status = HTTPStatusCode.NotFound_404) ∧
    ((head client env url hdrs).response.status = HTTPStatusCode.OK_200 ∨
      (head client env url hdrs).response.status = HTTPStatusCode.NotFound_404) ∧
    ((post client env pinfo).1.response.status = HTTPStatusCode.OK_200 ∨
      (post client env pinfo).1.response.status = HTTPStatusCode.NotFound_404) ∧
    ((put client env uinfo).1.response.status = HTTPStatusCode.OK_200 ∨
      (put client env uinfo).1.response.status = HTTPStatusCode.NotFound_404) ∧
    ((httpDelete client env dinfo).1.response.status = HTTPStatusCode.OK_200 ∨
      (httpDelete client env dinfo).1.response.status = HTTPStatusCode.NotFound_404) ∧
    (chosenRequest client env (normalizeUrl client.host_port url) "GET"
        (prepareHeaders hdrs) none = none →
      (get client env url hdrs hasHandler).response.status = HTTPStatusCode.NotFound_404 ∧
      (get client env url hdrs hasHandler).response.reason ≠ "") ∧
    (chosenHead client env (normalizeUrl client.host_port url)
        (prepareHeaders hdrs) = none →
      (head client env url hdrs).response.status = HTTPStatusCode.NotFound_404 ∧
      (head client env url hdrs).response.reason ≠ "" ∧
      (head client env url hdrs).response.headers = []) ∧
    (chosenRequest client env (normalizeUrl client.host_port pinfo.url) "POST"
        (prepareHeaders pinfo.headers) (some pinfo.buffer_in) = none →
      (post client env pinfo).1.response.status = HTTPStatusCode.NotFound_404 ∧
      (post client env pinfo).1.response.reason ≠ "") ∧
    (chosenRequest client env (normalizeUrl client.host_port uinfo.url) "PUT"
        (prepareHeaders uinfo.headers) (some uinfo.buffer_in) = none →
      (put client env uinfo).1.response.status = HTTPStatusCode.NotFound_404 ∧
      (put client env uinfo).1.response.reason ≠ "") ∧
    (chosenRequest client env (normalizeUrl client.host_port dinfo.url) "DELETE"
        (prepareHeaders dinfo.headers) none = none →
      (httpDelete client env dinfo).1.response.status = HTTPStatusCode.NotFound_404 ∧
      (httpDelete client env dinfo).1.response.reason ≠ "") := by
  refine ⟨doRequest_status_dichotomy .., doHeadRequest_status_dichotomy ..,
    ?_, doRequest_status_dichotomy .., doRequest_status_dichotomy ..,
    ?_, ?_, ?_, ?_, ?_⟩
  · rw [post_fst]
    exact doRequest_status_dichotomy ..
  · intro h
    unfold get
    rw [doRequest_fail client env "GET" url hdrs none hasHandler h]
    exact ⟨rfl, by decide⟩
  · intro h
    unfold head
    rw [doHeadRequest_fail client env url hdrs h]
    exact ⟨rfl, by decide, rfl⟩
  · intro h
    rw [post_fst]
    rw [doRequest_fail client env "POST" pinfo.url pinfo.headers
      (some pinfo.buffer_in) false h]
    exact ⟨rfl, by decide⟩
  · intro h
    unfold put
    rw [doRequest_fail client env "PUT" uinfo.url uinfo.headers
      (some uinfo.buffer_in) false h]
    exact ⟨rfl, by decide⟩
  · intro h
    unfold httpDelete
    rw [doRequest_fail client env "DELETE" dinfo.url dinfo.headers none false h]
    exact ⟨rfl, by decide⟩

/-- A host environment whose primitives all fail (return null). -/
def noneEnv : HostEnv :=
  { probeResult := 0,
    syncRequest := fun _ _ _ _ => none,
    asyncRequest := fun _ _ _ _ => none,
    syncHead := fun _ _ => none,
    asyncHead := fun _ _ => none }

/-- Witness for C1: against a host whose primitives all return null, a
`Head` dispatch yields a not-found response with a non-empty reason and an
empty header collection. -/
theorem verb_dispatch_contract_witness :
    (chosenHead (mkClient noneEnv "https://h").1 noneEnv
        (normalizeUrl (mkClient noneEnv "https://h").1.host_port "/x")
        (prepareHeaders []) = none) ∧
    ((head (mkClient noneEnv "https://h").1 noneEnv "/x" []).response.status =
        HTTPStatusCode.NotFound_404 ∧
      (head (mkClient noneEnv "https://h").1 noneEnv "/x" []).response.reason ≠ "" ∧
      (head (mkClient noneEnv "https://h").1 noneEnv "/x" []).response.headers = []) :=
  ⟨rfl,
    (verb_dispatch_contract (mkClient noneEnv "https://h").1 noneEnv "/x" [] false
      ⟨"/x", [], [], []⟩ ⟨"/x", [], []⟩ ⟨"/x", []⟩).2.2.2.2.2.2.1 rfl⟩

/-! ## C3: Get with a concrete host buffer -/

theorem doRequest_some (client : HTTPWasmClient) (env : HostEnv)
    (m url : String) (hdrs : List (String × String)) (body : Option (List Nat))
    (hh : Bool) (buf : List Nat)
    (h : chosenRequest client env (normalizeUrl client.host_port url) m
      (prepareHeaders hdrs) body = some buf) :
    doRequest client env m url hdrs body hh =
      { response := { status := HTTPStatusCode.OK_200, reason := "",
                      body := (buf.drop 4).take (decodeLen buf), headers := [] },
        handlerCalls := if hh then [⟨buf.drop 4, decodeLen buf⟩] else [],
        hostCalls := [requestEvent client] } := by
  unfold doRequest
  rw [h]

/-- The byte sequence of the ASCII text `"hello"`. -/
def helloBytes : List Nat := [104, 101, 108, 108, 111]

/-- The buffer the claim describes: the four bytes `[0,0,0,5]` followed by
`"hello"`. -/
def bigEndianHelloBuf : List Nat := [0, 0, 0, 5] ++ helloBytes

/-- The little-endian encoding of length 5 followed by `"hello"` — the
buffer the host-side encoder actually produces for payload `"hello"`. -/
def leHelloBuf : List Nat := [5, 0, 0, 0] ++ helloBytes

/-- A host environment whose primitives all succeed with the fixed wire
buffer `buf`, with capability-probe result `pr`. -/
def constEnvBuf (pr : Nat) (buf : List Nat) : HostEnv :=
  { probeResult := pr,
    syncRequest := fun _ _ _ _ => some buf,
    asyncRequest := fun _ _ _ _ => some buf,
    syncHead := fun _ _ => some buf,
    asyncHead := fun _ _ => some buf }

/-- C3 counterexample: when the host primitive returns the four bytes
`[0,0,0,5]` followed by `"hello"`, the bridge decodes the prefix as
little-endian, getting length `5 * 2^24 = 83886080`, so the streaming
handler is invoked with reported length `83886080` — not with exactly the
5 payload bytes the claim states. -/
theorem get_bigendian_prefix_cex :
    decodeLen bigEndianHelloBuf = 83886080 ∧
    (get (mkClient (constEnvBuf 1 bigEndianHelloBuf) "https://h").1
        (constEnvBuf 1 bigEndianHelloBuf) "/x" [] true).handlerCalls =
      [⟨helloBytes, 83886080⟩] ∧
    (get (mkClient (constEnvBuf 1 bigEndianHelloBuf) "https://h").1
        (constEnvBuf 1 bigEndianHelloBuf) "/x" [] true).handlerCalls ≠
      [⟨helloBytes, 5⟩] := by
  decide

/-- C3 amended: a Get call whose host primitive returns the little-endian
length prefix `[5,0,0,0]` followed by the five bytes `"hello"` yields a
success-status response whose body is `"hello"`, and a streaming handler,
when supplied, is invoked exactly once with exactly those 5 payload
bytes. -/
theorem get_hello_littleendian (pr : Nat) (php url : String)
    (hdrs : List (String × String)) (hasHandler : Bool) :
    (get (mkClient (constEnvBuf pr leHelloBuf) php).1 (constEnvBuf pr leHelloBuf)
        url hdrs hasHandler).response.status = HTTPStatusCode.OK_200 ∧
    (get (mkClient (constEnvBuf pr leHelloBuf) php).1 (constEnvBuf pr leHelloBuf)
        url hdrs hasHandler).response.body = helloBytes ∧
    (get (mkClient (constEnvBuf pr leHelloBuf) php).1 (constEnvBuf pr leHelloBuf)
        url hdrs hasHandler).handlerCalls =
      (if hasHandler then [⟨helloBytes, 5⟩] else []) := by
  have h : chosenRequest (mkClient (constEnvBuf pr leHelloBuf) php).1
      (constEnvBuf pr leHelloBuf)
      (normalizeUrl (mkClient (constEnvBuf pr leHelloBuf) php).1.host_port url)
      "GET" (prepareHeaders hdrs) none = some leHelloBuf := by
    simp [chosenRequest, constEnvBuf]
  unfold get
  rw [doRequest_some _ _ _ _ _ _ _ _ h]
  refine ⟨rfl, ?_, ?_⟩
  · show List.take (decodeLen leHelloBuf) (List.drop 4 leHelloBuf) = helloBytes
    decide
  · cases hasHandler
    · rfl
    · show [HandlerCall.mk (List.drop 4 leHelloBuf) (decodeLen leHelloBuf)] =
        [HandlerCall.mk helloBytes 5]
      decide

/-! ## C10: Post/Put/Delete frame effect on the output buffer -/

/-- C10: `Post` appends the response body onto `buffer_out` exactly when
the response has success status, leaving every other request-info field
unchanged; on any non-success response — in particular when the host
primitive returns null — the request info is completely unchanged; `Put`
and `Delete` never touch their request info at all. -/
theorem post_put_delete_frame (client : HTTPWasmClient) (env : HostEnv)
    (pinfo : PostRequestInfo) (uinfo : PutRequestInfo) (dinfo : DeleteRequestInfo) :
    ((post client env pinfo).1.response.status = HTTPStatusCode.OK_200 →
      (post client env pinfo).2 =
        { pinfo with buffer_out :=
            pinfo.buffer_out ++ (post client env pinfo).1.response.body }) ∧
    ((post client env pinfo).1.response.status ≠ HTTPStatusCode.OK_200 →
      (post client env pinfo).2 = pinfo) ∧
    (chosenRequest client env (normalizeUrl client.host_port pinfo.url) "POST"
        (prepareHeaders pinfo.headers) (some pinfo.buffer_in) = none →
      (post client env pinfo).2 = pinfo) ∧
    (put client env uinfo).2 = uinfo ∧
    (httpDelete client env dinfo).2 = dinfo := by
  have hneg : ∀ hs : ¬ (doRequest client env "POST" pinfo.url pinfo.headers
      (some pinfo.buffer_in) false).response.status = HTTPStatusCode.OK_200,
      (post client env pinfo).2 = pinfo := by
    intro hs
    simp only [post]
    rw [if_neg hs]
  refine ⟨?_, ?_, ?_, rfl, rfl⟩
  · intro hs
    rw [post_fst] at hs
    conv_rhs => rw [post_fst]
    simp only [post]
    rw [if_pos hs]
  · intro hs
    rw [post_fst] at hs
    exact hneg hs
  · intro h
    apply hneg
    rw [doRequest_fail _ _ _ _ _ _ _ h]
    decide

/-- Witness for C10: against a host whose primitives all return null, a
Post leaves the caller's request info (including `buffer_out`) completely
unchanged. -/
theorem post_put_delete_frame_witness :
    (chosenRequest (mkClient noneEnv "https://h").1 noneEnv
        (normalizeUrl (mkClient noneEnv "https://h").1.host_port "/x")
        "POST" (prepareHeaders []) (some [9]) = none) ∧
    (post (mkClient noneEnv "https://h").1 noneEnv ⟨"/x", [], [9], [1, 2]⟩).2 =
      (⟨"/x", [], [9], [1, 2]⟩ : PostRequestInfo) :=
  ⟨rfl,
    (post_put_delete_frame (mkClient noneEnv "https://h").1 noneEnv
      ⟨"/x", [], [9], [1, 2]⟩ ⟨"/x", [], []⟩ ⟨"/x", []⟩).2.2.1 rfl⟩

/-! ## C6: outbound header marshaling and host-side rename -/

theorem prepareHeaders_length (H : List (String × String)) :
    (prepareHeaders H).length = 2 * H.length := by
  induction H with
  | nil => rfl
  | cons h t ih => simp [prepareHeaders, ih, Nat.mul_succ]

theorem prepareHeaders_getD_even (H : List (String × String)) (i : Nat) :
    (prepareHeaders H).getD (2 * i) "" = (H.getD i ("", "")).1 := by
  induction H generalizing i with
  | nil => simp [prepareHeaders, List.getD]
  | cons h t ih =>
    cases i with
    | zero => rfl
    | succ j =>
      have : 2 * (j + 1) = (2 * j + 1) + 1 := by omega
      simp only [prepareHeaders, this, List.getD_cons_succ, List.getD_cons_succ]
      exact ih j

theorem prepareHeaders_getD_odd (H : List (String × String)) (i : Nat) :
    (prepareHeaders H).getD (2 * i + 1) "" = (H.getD i ("", "")).2 := by
  induction H generalizing i with
  | nil => simp [prepareHeaders, List.getD]
  | cons h t ih =>
    cases i with
    | zero => rfl
    | succ j =>
      have : 2 * (j + 1) + 1 = ((2 * j + 1) + 1) + 1 := by omega
      simp only [prepareHeaders, this, List.getD_cons_succ, List.getD_cons_succ]
      exact ih j

theorem installHeaders_prepareHeaders (H : List (String × String)) :
    installHeaders (prepareHeaders H) =
      H.map (fun p => (renameHeader p.1, p.2)) := by
  induction H with
  | nil => rfl
  | cons h t ih => simp [prepareHeaders, installHeaders, ih]

theorem renameHeader_ne_reserved (n : String) :
    renameHeader n ≠ "Host" ∧ renameHeader n ≠ "User-Agent" := by
  simp only [renameHeader]
  by_cases h1 : n = "Host"
  · rw [if_pos h1]
    decide
  · rw [if_neg h1]
    by_cases h2 : n = "User-Agent"
    · rw [if_pos h2]
      decide
    · rw [if_neg h2]
      exact ⟨h1, h2⟩

/-- C6: `PrepareHeaders` copies every name and value verbatim into the flat
`2N` array — even indices names, odd indices values, insertion order
preserved — and the reserved-name rename happens at host-call time: a pair
named `"Host"` is installed as `"X-Host-Override"`, one named
`"User-Agent"` as `"X-User-Agent"`, and neither reserved name is ever
installed. -/
theorem header_marshal_and_rename (H : List (String × String)) :
    (prepareHeaders H).length = 2 * H.length ∧
    (∀ i : Nat, (prepareHeaders H).getD (2 * i) "" = (H.getD i ("", "")).1) ∧
    (∀ i : Nat, (prepareHeaders H).getD (2 * i + 1) "" = (H.getD i ("", "")).2) ∧
    installHeaders (prepareHeaders H) = H.map (fun p => (renameHeader p.1, p.2)) ∧
    (∀ v : String, ("Host", v) ∈ H →
      ("X-Host-Override", v) ∈ installHeaders (prepareHeaders H)) ∧
    (∀ v : String, ("User-Agent", v) ∈ H →
      ("X-User-Agent", v) ∈ installHeaders (prepareHeaders H)) ∧
    (∀ p ∈ installHeaders (prepareHeaders H), p.1 ≠ "Host" ∧ p.1 ≠ "User-Agent") := by
  refine ⟨prepareHeaders_length H, prepareHeaders_getD_even H,
    prepareHeaders_getD_odd H, installHeaders_prepareHeaders H, ?_, ?_, ?_⟩
  · intro v hv
    rw [installHeaders_prepareHeaders]
    have := List.mem_map_of_mem (fun p : String × String => (renameHeader p.1, p.2)) hv
    simpa using this
  · intro v hv
    rw [installHeaders_prepareHeaders]
    have := List.mem_map_of_mem (fun p : String × String => (renameHeader p.1, p.2)) hv
    simpa using this
  · intro p hp
    rw [installHeaders_prepareHeaders] at hp
    obtain ⟨a, _, rfl⟩ := List.mem_map.mp hp
    exact renameHeader_ne_reserved a.1

/-- Witness for C6: a header set containing `("Host","example.com")` and
`("User-Agent","x")` installs the renamed names. -/
theorem header_marshal_and_rename_witness :
    (("Host", "example.com") ∈
      [("Host", "example.com"), ("User-Agent", "x")] ∧
      ("X-Host-Override", "example.com") ∈
        installHeaders (prepareHeaders
          [("Host", "example.com"), ("User-Agent", "x")])) :=
  ⟨by decide,
    (header_marshal_and_rename
      [("Host", "example.com"), ("User-Agent", "x")]).2.2.2.2.1
      "example.com" (by decide)⟩

/-! ## C7: the capability probe and the cached transport mode -/

/-- One engine-level operation on the client. -/
inductive VerbOp where
  | getOp (url : String) (hdrs : List (String × String)) (hasHandler : Bool)
  | headOp (url : String) (hdrs : List (String × String))
  | postOp (info : PostRequestInfo)
  | putOp (info : PutRequestInfo)
  | delOp (info : DeleteRequestInfo)

/-- The host-boundary calls one engine-level operation performs. -/
def runOp (client : HTTPWasmClient) (env : HostEnv) : VerbOp → List HostCall
  | .getOp url hdrs hh => (get client env url hdrs hh).hostCalls
  | .headOp url hdrs => (head client env url hdrs).hostCalls
  | .postOp info => (post client env info).1.hostCalls
  | .putOp info => (put client env info).1.hostCalls
  | .delOp info => (httpDelete client env info).1.hostCalls

/-- The host-boundary calls of a whole client lifetime: one construction
followed by any sequence of dispatches. -/
def sessionTrace (env : HostEnv) (php : String) (ops : List VerbOp) :
    List HostCall :=
  (mkClient env php).2 ++ ops.flatMap (runOp (mkClient env php).1 env)

/-- Whether a host call is one of the two synchronous primitives. -/
def isSyncCall : HostCall → Bool
  | .syncReq => true
  | .syncHeadCall => true
  | _ => false

theorem doRequest_hostCalls (client : HTTPWasmClient) (env : HostEnv)
    (m url : String) (hdrs : List (String × String)) (body : Option (List Nat))
    (hh : Bool) :
    (doRequest client env m url hdrs body hh).hostCalls = [requestEvent client] := by
  unfold doRequest
  split <;> rfl

theorem doHeadRequest_hostCalls (client : HTTPWasmClient) (env : HostEnv)
    (url : String) (hdrs : List (String × String)) :
    (doHeadRequest client env url hdrs).hostCalls = [headEvent client] := by
  unfold doHeadRequest
  split <;> rfl

theorem runOp_no_probe (client : HTTPWasmClient) (env : HostEnv) (op : VerbOp) :
    ∀ c ∈ runOp client env op, c ≠ HostCall.probe ∧
      isSyncCall c = client.use_sync_xhr := by
  have hreq : ∀ c ∈ [requestEvent client], c ≠ HostCall.probe ∧
      isSyncCall c = client.use_sync_xhr := by
    intro c hc
    rw [List.mem_singleton] at hc
    subst hc
    unfold requestEvent
    cases h : client.use_sync_xhr <;> simp [isSyncCall]
  have hhd : ∀ c ∈ [headEvent client], c ≠ HostCall.probe ∧
      isSyncCall c = client.use_sync_xhr := by
    intro c hc
    rw [List.mem_singleton] at hc
    subst hc
    unfold headEvent
    cases h : client.use_sync_xhr <;> simp [isSyncCall]
  cases op with
  | getOp url hdrs hh =>
    rw [runOp, get, doRequest_hostCalls]
    exact hreq
  | headOp url hdrs =>
    rw [runOp, head, doHeadRequest_hostCalls]
    exact hhd
  | postOp info =>
    rw [runOp, post_fst, doRequest_hostCalls]
    exact hreq
  | putOp info =>
    rw [runOp, put, doRequest_hostCalls]
    exact hreq
  | delOp info =>
    rw [runOp, httpDelete, doRequest_hostCalls]
    exact hreq

/-- C7: the capability probe is performed exactly once per client, at
construction; its result fixes the transport mode (synchronous iff the
probe reports `1`); no dispatch ever probes again, and every host primitive
a dispatch selects agrees with the one cached mode. -/
theorem capability_probe_once (env : HostEnv) (php : String) (ops : List VerbOp) :
    (mkClient env php).1.use_sync_xhr = (env.probeResult == 1) ∧
    (sessionTrace env php ops).count HostCall.probe = 1 ∧
    (∀ c ∈ ops.flatMap (runOp (mkClient env php).1 env),
      c ≠ HostCall.probe ∧ isSyncCall c = (mkClient env php).1.use_sync_xhr) := by
  have hmem : ∀ c ∈ ops.flatMap (runOp (mkClient env php).1 env),
      c ≠ HostCall.probe ∧ isSyncCall c = (mkClient env php).1.use_sync_xhr := by
    intro c hc
    obtain ⟨op, _, hcop⟩ := List.mem_flatMap.mp hc
    exact runOp_no_probe _ env op c hcop
  refine ⟨rfl, ?_, hmem⟩
  have hzero : (ops.flatMap (runOp (mkClient env php).1 env)).count HostCall.probe = 0 := by
    rw [List.count_eq_zero]
    intro hmem2
    exact (hmem _ hmem2).1 rfl
  show ((mkClient env php).2 ++ ops.flatMap (runOp (mkClient env php).1 env)).count
    HostCall.probe = 1
  rw [List.count_append, hzero]
  rfl

/-- Witness for C7: in a one-Get session against the all-null host, the
async request primitive is the dispatched call, it is not a probe, and it
matches the cached (asynchronous) mode. -/
theorem capability_probe_once_witness :
    (HostCall.asyncReq ∈
      [VerbOp.getOp "/x" [] false].flatMap (runOp (mkClient noneEnv "h").1 noneEnv)) ∧
    (HostCall.asyncReq ≠ HostCall.probe ∧
      isSyncCall HostCall.asyncReq = (mkClient noneEnv "h").1.use_sync_xhr) :=
  ⟨by decide,
    (capability_probe_once noneEnv "h" [VerbOp.getOp "/x" [] false]).2.2
      HostCall.asyncReq (by decide)⟩

/-! ## C9: the Arrow IPC ingestion helper's input guard
(`duckdb_wasm_insert_arrow_ipc` in `src/arrow/arrow_ipc_insert.cpp`) -/

/-- `duckdb_state`. -/
inductive DuckDBState where
  | success
  | error
  deriving DecidableEq, Repr

/-- Externally visible work the ingestion helper performs (nanoarrow and
DuckDB C-API calls). -/
inductive IpcAction where
  | streamInit
  | readerInit
  | arrowScan (viewName : String)
  | runQuery (sql : String)
  deriving DecidableEq, Repr

/-- Outcomes of the external nanoarrow / DuckDB calls the helper makes. -/
structure IpcEnv where
  streamInitOk : Bool
  readerInitOk : Bool
  arrowScanOk : Bool
  createResult : DuckDBState

/-- `duckdb_wasm_insert_arrow_ipc`: reject null connection, null table
name, null buffer or zero length with `DuckDBError` before doing anything;
otherwise init the input stream, the IPC reader and `duckdb_arrow_scan`
(each early-returning `DuckDBError` on failure), then run the
`CREATE TABLE` query followed by the view-dropping query, returning the
create query's state.  The second component is the list of external actions
performed, in order. -/
def insertArrowIpc (env : IpcEnv) (connection : Option Unit)
    (table_name : Option String) (ipc_buffer : Option Unit)
    (buffer_length : Nat) : DuckDBState × List IpcAction :=
  if connection = none ∨ table_name = none ∨ ipc_buffer = none ∨
      buffer_length = 0 then
    (DuckDBState.error, [])
  else
    if env.streamInitOk = false then
      (DuckDBState.error, [IpcAction.streamInit])
    else if env.readerInitOk = false then
      (DuckDBState.error, [IpcAction.streamInit, IpcAction.readerInit])
    else if env.arrowScanOk = false then
      (DuckDBState.error,
        [IpcAction.streamInit, IpcAction.readerInit,
          IpcAction.arrowScan "__ducklings_arrow_tmp"])
    else
      (env.createResult,
        [IpcAction.streamInit, IpcAction.readerInit,
          IpcAction.arrowScan "__ducklings_arrow_tmp",
          IpcAction.runQuery
            ("CREATE TABLE IF NOT EXISTS \"" ++ table_name.getD "" ++
              "\" AS SELECT * FROM \"__ducklings_arrow_tmp\""),
          IpcAction.runQuery
            "DROP VIEW IF EXISTS \"__ducklings_arrow_tmp\""])

/-- C9: whenever the connection, table name or buffer is null or the
length is zero, the helper returns the generic failure status immediately
and performs no external work at all. -/
theorem insertArrowIpc_guard (env : IpcEnv) (connection : Option Unit)
    (table_name : Option String) (ipc_buffer : Option Unit)
    (buffer_length : Nat)
    (h : connection = none ∨ table_name = none ∨ ipc_buffer = none ∨
      buffer_length = 0) :
    insertArrowIpc env connection table_name ipc_buffer buffer_length =
      (DuckDBState.error, []) := by
  unfold insertArrowIpc
  rw [if_pos h]

/-- Witness for C9 at a null buffer pointer. -/
theorem insertArrowIpc_guard_witness :
    ((some () : Option Unit) = none ∨ (some "t" : Option String) = none ∨
      (none : Option Unit) = none ∨ (42 : Nat) = 0) ∧
    insertArrowIpc ⟨true, true, true, DuckDBState.success⟩ (some ()) (some "t")
      none 42 = (DuckDBState.error, []) :=
  ⟨by decide,
    insertArrowIpc_guard ⟨true, true, true, DuckDBState.success⟩ (some ())
      (some "t") none 42 (by decide)⟩

/-! ## C5: inbound header-block decode and its round-trip -/

theorem hasCRLF_cons2 (c d : Char) (t : List Char) :
    hasCRLF (c :: d :: t) =
      ((decide (c = '\r') && decide (d = '\n')) || hasCRLF (d :: t)) := rfl

theorem hasCRLF_cons (c : Char) (l : List Char) :
    hasCRLF (c :: l) =
      ((decide (c = '\r') && decide (l.head? = some '\n')) || hasCRLF l) := by
  cases l with
  | nil => simp [hasCRLF]
  | cons d t => simp [hasCRLF_cons2, hasCRLF]

theorem splitCRLF_sep (a rest : List Char) (h : hasCRLF a = false) :
    splitCRLF (a ++ '\r' :: '\n' :: rest) = a :: splitCRLF rest := by
  induction a with
  | nil =>
    show splitCRLF ('\r' :: '\n' :: rest) = [] :: splitCRLF rest
    rw [splitCRLF]
    rw [if_pos ⟨rfl, rfl⟩]
  | cons c a' ih =>
    cases a' with
    | nil =>
      show splitCRLF (c :: '\r' :: '\n' :: rest) = [c] :: splitCRLF rest
      rw [splitCRLF]
      rw [if_neg (by rintro ⟨-, h2⟩; exact absurd h2 (by decide))]
      rw [show splitCRLF ('\r' :: '\n' :: rest) = [] :: splitCRLF rest from by
        rw [splitCRLF]; rw [if_pos ⟨rfl, rfl⟩]]
      rfl
    | cons d a'' =>
      rw [hasCRLF_cons2] at h
      have h2 := Bool.or_eq_false_iff.mp h
      have hcd : ¬(c = '\r' ∧ d = '\n') := by
        rintro ⟨rfl, rfl⟩
        simp at h2
      have htail : hasCRLF (d :: a'') = false := h2.2
      show splitCRLF (c :: d :: (a'' ++ '\r' :: '\n' :: rest)) =
        (c :: d :: a'') :: splitCRLF rest
      rw [splitCRLF]
      rw [if_neg hcd]
      have hrec : splitCRLF (d :: (a'' ++ '\r' :: '\n' :: rest)) =
          (d :: a'') :: splitCRLF rest := ih htail
      rw [hrec]
      rfl

theorem hasCRLF_append (a : List Char) (c : Char) (hc : c ≠ '\n')
    (b : List Char) :
    hasCRLF (a ++ c :: b) = (hasCRLF a || hasCRLF (c :: b)) := by
  induction a with
  | nil => rfl
  | cons x a' ih =>
    rw [List.cons_append, hasCRLF_cons, hasCRLF_cons x a', ih]
    have hhead : decide ((a' ++ c :: b).head? = some '\n') =
        decide (a'.head? = some '\n') := by
      cases a' with
      | nil => simp [hc]
      | cons y t => simp
    rw [hhead, Bool.or_assoc]

theorem hasCRLF_line (n v : List Char) (hn : hasCRLF n = false)
    (hv : hasCRLF v = false) :
    hasCRLF (n ++ ':' :: ' ' :: v) = false := by
  rw [hasCRLF_append n ':' (by decide), hn, hasCRLF_cons, hasCRLF_cons]
  simp [hv]

theorem parseLine_no_colon (l : List Char) (h : ':' ∉ l) : parseLine l = none := by
  induction l with
  | nil => rfl
  | cons c t ih =>
    have hc : ¬c = ':' := by
      intro hch
      subst hch
      exact h (List.mem_cons_self ':' t)
    rw [parseLine]
    rw [if_neg hc]
    rw [ih (fun ht => h (List.mem_cons_of_mem c ht))]

theorem parseLine_encode (n v : List Char) (hn : ':' ∉ n) :
    parseLine (n ++ ':' :: ' ' :: v) = some (n, trimValue v) := by
  induction n with
  | nil =>
    show parseLine (':' :: ' ' :: v) = some ([], trimValue v)
    rw [parseLine]
    rw [if_pos rfl]
    simp [trimValue, List.dropWhile]
  | cons c n' ih =>
    have hc : ¬c = ':' := by
      intro hch
      subst hch
      exact hn (List.mem_cons_self ':' n')
    have hn' : ':' ∉ n' := fun h => hn (List.mem_cons_of_mem c h)
    show parseLine (c :: (n' ++ ':' :: ' ' :: v)) = some (c :: n', trimValue v)
    rw [parseLine]
    rw [if_neg hc, ih hn']

theorem encodeHeaderBlock_cons (n v : List Char)
    (t : List (List Char × List Char)) :
    encodeHeaderBlock ((n, v) :: t) =
      (n ++ ':' :: ' ' :: v) ++ '\r' :: '\n' :: encodeHeaderBlock t := by
  show n ++ ':' :: ' ' :: v ++ '\r' :: '\n' :: encodeHeaderBlock t =
    (n ++ ':' :: ' ' :: v) ++ '\r' :: '\n' :: encodeHeaderBlock t
  simp

theorem decodeHeaderBlock_encode (H : List (List Char × List Char))
    (hw : ∀ p ∈ H, ':' ∉ p.1 ∧ hasCRLF p.1 = false ∧ hasCRLF p.2 = false) :
    decodeHeaderBlock (encodeHeaderBlock H) =
      H.map (fun p => (p.1, trimValue p.2)) := by
  induction H with
  | nil => rfl
  | cons p t ih =>
    obtain ⟨hcolon, hn, hv⟩ := hw p (List.mem_cons_self p t)
    have hline : hasCRLF (p.1 ++ ':' :: ' ' :: p.2) = false := hasCRLF_line _ _ hn hv
    have ht := ih (fun q hq => hw q (List.mem_cons_of_mem p hq))
    unfold decodeHeaderBlock at ht ⊢
    obtain ⟨n, v⟩ := p
    rw [encodeHeaderBlock_cons, splitCRLF_sep _ _ hline, List.filterMap_cons,
      parseLine_encode _ _ hcolon, ht]
    rfl

/-- C5: the inbound header-block decoder never fails (it is a total
function), silently drops every line containing no colon, and — splitting
on `"\r\n"`, splitting each line at its first `':'` and trimming leading
spaces from the value — recovers, from any well-formed rendering of a
header set `H` as `Name: Value\r\n` lines, exactly the pairs of `H` modulo
leading-space trimming on values. -/
theorem header_block_decode_roundtrip :
    (∀ l : List Char, ':' ∉ l → parseLine l = none) ∧
    (∀ H : List (List Char × List Char),
      (∀ p ∈ H, ':' ∉ p.1 ∧ hasCRLF p.1 = false ∧ hasCRLF p.2 = false) →
      decodeHeaderBlock (encodeHeaderBlock H) =
        H.map (fun p => (p.1, trimValue p.2))) :=
  ⟨parseLine_no_colon, decodeHeaderBlock_encode⟩

/-- Witness for C5 on the header set
`[("A", " x"), ("Key", "val")]` (note the leading space in the first
value, which decoding trims). -/
theorem header_block_decode_roundtrip_witness :
    (∀ p ∈ [(['A'], [' ', 'x']), (['K', 'e', 'y'], ['v', 'a', 'l'])],
      ':' ∉ p.1 ∧ hasCRLF p.1 = false ∧ hasCRLF p.2 = false) ∧
    decodeHeaderBlock (encodeHeaderBlock
        [(['A'], [' ', 'x']), (['K', 'e', 'y'], ['v', 'a', 'l'])]) =
      [(['A'], ['x']), (['K', 'e', 'y'], ['v', 'a', 'l'])] :=
  ⟨by decide,
    by
      rw [header_block_decode_roundtrip.2
        [(['A'], [' ', 'x']), (['K', 'e', 'y'], ['v', 'a', 'l'])] (by decide)]
      decide⟩

/-! ## C8: allocation balance of one `DoRequest` dispatch

`PrepareHeaders` mallocs the flat pointer array and then, per header pair
`i` (in order), the name copy and the value copy; `DoRequest` then mallocs
the call-scoped body copy when a body is present, performs the host call
(the host mallocs the wire response buffer exactly when it succeeds), and
unconditionally runs `FreeHeaders` (which frees the `2N` string buffers in
index order and then the array) and frees the body copy; on success it
decodes the payload and then frees the wire buffer. -/

/-- Identity of a heap allocation crossing the host-call boundary. -/
inductive MemId where
  | ptrArray
  | hdrName (i : Nat)
  | hdrVal (i : Nat)
  | bodyCopy
  | wireBuf
  deriving DecidableEq, Repr

/-- Allocation/free/host-call/decode events of one dispatch, in program
order. -/
inductive MemEvent where
  | allocE (id : MemId)
  | freeE (id : MemId)
  | hostCallE
  | decodeE
  deriving DecidableEq, Repr

/-- The allocations of the `PrepareHeaders` loop: for each `i < n`, the
name buffer then the value buffer, ascending. -/
def pairAllocs : Nat → List MemEvent
  | 0 => []
  | n + 1 => pairAllocs n ++
      [MemEvent.allocE (MemId.hdrName n), MemEvent.allocE (MemId.hdrVal n)]

/-- The frees of the `FreeHeaders` loop (`free(z[0]) … free(z[2n-1])`):
same ascending pair order as the allocations. -/
def pairFrees : Nat → List MemEvent
  | 0 => []
  | n + 1 => pairFrees n ++
      [MemEvent.freeE (MemId.hdrName n), MemEvent.freeE (MemId.hdrVal n)]

/-- The memory-event trace of one `DoRequest` dispatch with `n` headers,
an optional body, and host outcome `hostOk`. -/
def doRequestMemTrace (n : Nat) (hasBody hostOk : Bool) : List MemEvent :=
  MemEvent.allocE MemId.ptrArray :: pairAllocs n
    ++ (if hasBody then [MemEvent.allocE MemId.bodyCopy] else [])
    ++ [MemEvent.hostCallE]
    ++ (if hostOk then [MemEvent.allocE MemId.wireBuf] else [])
    ++ pairFrees n ++ [MemEvent.freeE MemId.ptrArray]
    ++ (if hasBody then [MemEvent.freeE MemId.bodyCopy] else [])
    ++ (if hostOk then [MemEvent.decodeE, MemEvent.freeE MemId.wireBuf] else [])

/-- The ids allocated in a trace, in order. -/
def allocatedIds (t : List MemEvent) : List MemId :=
  t.filterMap fun e => match e with
    | MemEvent.allocE id => some id
    | _ => none

/-- The ids freed in a trace, in order. -/
def freedIds (t : List MemEvent) : List MemId :=
  t.filterMap fun e => match e with
    | MemEvent.freeE id => some id
    | _ => none

/-- The header-buffer ids of `n` pairs, in allocation order. -/
def pairIds : Nat → List MemId
  | 0 => []
  | n + 1 => pairIds n ++ [MemId.hdrName n, MemId.hdrVal n]

theorem allocatedIds_append (a b : List MemEvent) :
    allocatedIds (a ++ b) = allocatedIds a ++ allocatedIds b :=
  List.filterMap_append ..

theorem freedIds_append (a b : List MemEvent) :
    freedIds (a ++ b) = freedIds a ++ freedIds b :=
  List.filterMap_append ..

theorem allocatedIds_nil : allocatedIds [] = [] := rfl

theorem allocatedIds_allocE (x : MemId) (t : List MemEvent) :
    allocatedIds (MemEvent.allocE x :: t) = x :: allocatedIds t := rfl

theorem allocatedIds_freeE (x : MemId) (t : List MemEvent) :
    allocatedIds (MemEvent.freeE x :: t) = allocatedIds t := rfl

theorem allocatedIds_hostCallE (t : List MemEvent) :
    allocatedIds (MemEvent.hostCallE :: t) = allocatedIds t := rfl

theorem allocatedIds_decodeE (t : List MemEvent) :
    allocatedIds (MemEvent.decodeE :: t) = allocatedIds t := rfl

theorem freedIds_nil : freedIds [] = [] := rfl

theorem freedIds_allocE (x : MemId) (t : List MemEvent) :
    freedIds (MemEvent.allocE x :: t) = freedIds t := rfl

theorem freedIds_freeE (x : MemId) (t : List MemEvent) :
    freedIds (MemEvent.freeE x :: t) = x :: freedIds t := rfl

theorem freedIds_hostCallE (t : List MemEvent) :
    freedIds (MemEvent.hostCallE :: t) = freedIds t := rfl

theorem freedIds_decodeE (t : List MemEvent) :
    freedIds (MemEvent.decodeE :: t) = freedIds t := rfl

theorem allocatedIds_pairAllocs (n : Nat) :
    allocatedIds (pairAllocs n) = pairIds n := by
  induction n with
  | zero => rfl
  | succ m ih => rw [pairAllocs, allocatedIds_append, ih]; rfl

theorem freedIds_pairAllocs (n : Nat) : freedIds (pairAllocs n) = [] := by
  induction n with
  | zero => rfl
  | succ m ih => rw [pairAllocs, freedIds_append, ih]; rfl

theorem freedIds_pairFrees (n : Nat) : freedIds (pairFrees n) = pairIds n := by
  induction n with
  | zero => rfl
  | succ m ih => rw [pairFrees, freedIds_append, ih]; rfl

theorem allocatedIds_pairFrees (n : Nat) : allocatedIds (pairFrees n) = [] := by
  induction n with
  | zero => rfl
  | succ m ih => rw [pairFrees, allocatedIds_append, ih]; rfl

theorem mem_pairIds (x : MemId) (n : Nat) (h : x ∈ pairIds n) :
    ∃ i, i < n ∧ (x = MemId.hdrName i ∨ x = MemId.hdrVal i) := by
  induction n with
  | zero => cases h
  | succ m ih =>
    rw [pairIds, List.mem_append] at h
    rcases h with h | h
    · obtain ⟨i, hi, hx⟩ := ih h
      exact ⟨i, Nat.lt_succ_of_lt hi, hx⟩
    · rcases List.mem_pair.mp h with h | h
      · exact ⟨m, Nat.lt_succ_self m, Or.inl h⟩
      · exact ⟨m, Nat.lt_succ_self m, Or.inr h⟩

theorem pairIds_nodup (n : Nat) : (pairIds n).Nodup := by
  induction n with
  | zero => exact List.nodup_nil
  | succ m ih =>
    rw [pairIds]
    refine List.Nodup.append ih (by simp) ?_
    intro x hx hx2
    obtain ⟨i, hi, hcase⟩ := mem_pairIds x m hx
    rcases List.mem_pair.mp hx2 with h2 | h2
    · rcases hcase with h | h
      · rw [h2, MemId.hdrName.injEq] at h
        omega
      · rw [h2] at h
        exact MemId.noConfusion h
    · rcases hcase with h | h
      · rw [h2] at h
        exact MemId.noConfusion h
      · rw [h2, MemId.hdrVal.injEq] at h
        omega

theorem ptrArray_not_mem_pairIds (n : Nat) : MemId.ptrArray ∉ pairIds n := by
  intro h
  obtain ⟨i, _, hcase⟩ := mem_pairIds _ n h
  rcases hcase with h | h <;> cases h

theorem bodyCopy_not_mem_pairIds (n : Nat) : MemId.bodyCopy ∉ pairIds n := by
  intro h
  obtain ⟨i, _, hcase⟩ := mem_pairIds _ n h
  rcases hcase with h | h <;> cases h

theorem wireBuf_not_mem_pairIds (n : Nat) : MemId.wireBuf ∉ pairIds n := by
  intro h
  obtain ⟨i, _, hcase⟩ := mem_pairIds _ n h
  rcases hcase with h | h <;> cases h

theorem allocatedIds_trace (n : Nat) (hasBody hostOk : Bool) :
    allocatedIds (doRequestMemTrace n hasBody hostOk) =
      MemId.ptrArray :: (pairIds n ++
        ((if hasBody then [MemId.bodyCopy] else []) ++
          (if hostOk then [MemId.wireBuf] else []))) := by
  unfold doRequestMemTrace
  cases hasBody <;> cases hostOk <;>
    simp [allocatedIds_append, allocatedIds_pairAllocs, allocatedIds_pairFrees,
      allocatedIds_nil, allocatedIds_allocE, allocatedIds_freeE,
      allocatedIds_hostCallE, allocatedIds_decodeE]

theorem freedIds_trace (n : Nat) (hasBody hostOk : Bool) :
    freedIds (doRequestMemTrace n hasBody hostOk) =
      pairIds n ++ MemId.ptrArray ::
        ((if hasBody then [MemId.bodyCopy] else []) ++
          (if hostOk then [MemId.wireBuf] else [])) := by
  unfold doRequestMemTrace
  cases hasBody <;> cases hostOk <;>
    simp [freedIds_append, freedIds_pairAllocs, freedIds_pairFrees,
      freedIds_nil, freedIds_allocE, freedIds_freeE, freedIds_hostCallE,
      freedIds_decodeE]

/-- C8: in every `DoRequest` dispatch — any header count, with or without a
body, host success or failure — the allocated identifiers are pairwise
distinct and the freed identifiers are exactly a permutation of them (each
allocation is freed exactly once by the same dispatch); the wire response
buffer is allocated (by the host) exactly on success, and on success the
trace ends with the payload decode followed by the bridge freeing the wire
buffer. -/
theorem doRequest_alloc_balance (n : Nat) (hasBody hostOk : Bool) :
    (allocatedIds (doRequestMemTrace n hasBody hostOk)).Nodup ∧
    (freedIds (doRequestMemTrace n hasBody hostOk)).Perm
      (allocatedIds (doRequestMemTrace n hasBody hostOk)) ∧
    (MemId.wireBuf ∈ allocatedIds (doRequestMemTrace n hasBody hostOk) ↔
      hostOk = true) ∧
    (hostOk = true → ∃ l, doRequestMemTrace n hasBody hostOk =
      l ++ [MemEvent.decodeE, MemEvent.freeE MemId.wireBuf]) := by
  rw [allocatedIds_trace, freedIds_trace]
  refine ⟨?_, List.perm_middle, ?_, ?_⟩
  · rw [List.nodup_cons]
    constructor
    · intro hmem
      rw [List.mem_append] at hmem
      rcases hmem with h | h
      · exact ptrArray_not_mem_pairIds n h
      · rw [List.mem_append] at h
        rcases h with h | h <;> cases hasBody <;> cases hostOk <;> simp_all
    · refine List.Nodup.append (pairIds_nodup n) ?_ ?_
      · cases hasBody <;> cases hostOk <;> decide
      · intro x hx hx2
        obtain ⟨i, _, hcase⟩ := mem_pairIds x n hx
        rw [List.mem_append] at hx2
        rcases hcase with rfl | rfl <;> rcases hx2 with h | h <;>
          cases hasBody <;> cases hostOk <;> simp_all
  · cases hostOk
    · constructor
      · intro hmem
        exfalso
        rcases List.mem_cons.mp hmem with h | h
        · exact MemId.noConfusion h
        · rw [List.mem_append] at h
          rcases h with h | h
          · exact wireBuf_not_mem_pairIds n h
          · rw [List.mem_append] at h
            rcases h with h | h <;> cases hasBody <;> simp_all
      · intro h
        exact absurd h (by decide)
    · constructor
      · intro _
        rfl
      · intro _
        simp
  · intro h
    subst h
    refine ⟨MemEvent.allocE MemId.ptrArray :: pairAllocs n
      ++ (if hasBody then [MemEvent.allocE MemId.bodyCopy] else [])
      ++ [MemEvent.hostCallE] ++ [MemEvent.allocE MemId.wireBuf]
      ++ pairFrees n ++ [MemEvent.freeE MemId.ptrArray]
      ++ (if hasBody then [MemEvent.freeE MemId.bodyCopy] else []), ?_⟩
    unfold doRequestMemTrace
    cases hasBody <;> simp

/-- Witness for C8: a successful dispatch with two headers and a body ends
with the payload decode followed by the wire-buffer free. -/
theorem doRequest_alloc_balance_witness :
    (true = true) ∧ ∃ l, doRequestMemTrace 2 true true =
      l ++ [MemEvent.decodeE, MemEvent.freeE MemId.wireBuf] :=
  ⟨rfl, (doRequest_alloc_balance 2 true true).2.2.2 rfl⟩

end Ducklings
